import Mathlib

/-!
Verification development for a small Rust HTTP/1.x server
(message codec, routing tree, error translation, session loop).

Modelling conventions:
* Rust `String`/`&str` values are modelled as `List Char`
  (Unicode scalar values, as in Rust).
* Raw socket bytes are modelled as `List Nat` (each element a byte value).
* Rust `HashMap<String, String>` is modelled as an association list whose
  `insert` replaces the value of an existing key in place and appends new
  keys; the list order is the insertion order of the keys.  Iteration order
  of the real hash map is unspecified, so functions that iterate a map take
  the iteration order as an explicit argument where it matters.
* The `f32` protocol version is modelled as an exact decimal value; the
  parser and printer below agree with Rust's `f32` parsing/printing on the
  short decimal literals that occur in HTTP version fields (for example
  `1.0`, `1.1`); `f32` rounding, exponent forms and `inf`/`nan` are out of
  scope.
* A Rust slice-indexing panic is modelled explicitly as a distinguished
  outcome, never as an arbitrary value.
-/

/-- Characters of a Lean string literal, used to write concrete Rust strings. -/
def chars (s : String) : List Char := s.data

/-- Rust `u8::to_ascii_lowercase`: map only the ASCII letters `A`-`Z`. -/
def asciiLowerChar (c : Char) : Char :=
  if 65 ≤ c.toNat ∧ c.toNat ≤ 90 then Char.ofNat (c.toNat + 32) else c

/-- Rust `str::to_ascii_lowercase` on a whole string. -/
def asciiLower (s : List Char) : List Char := s.map asciiLowerChar

/-- Rust `u8::to_ascii_uppercase`: map only the ASCII letters `a`-`z`. -/
def asciiUpperChar (c : Char) : Char :=
  if 97 ≤ c.toNat ∧ c.toNat ≤ 122 then Char.ofNat (c.toNat - 32) else c

/-- Rust `str::to_ascii_uppercase` on a whole string. -/
def asciiUpper (s : List Char) : List Char := s.map asciiUpperChar

/-- UTF-8 encoding of one Unicode scalar value, as Rust `String` stores it. -/
def utf8EncodeChar (c : Char) : List Nat :=
  let n := c.toNat
  if n < 128 then [n]
  else if n < 2048 then [192 + n / 64, 128 + n % 64]
  else if n < 65536 then [224 + n / 4096, 128 + (n / 64) % 64, 128 + n % 64]
  else [240 + n / 262144, 128 + (n / 4096) % 64, 128 + (n / 64) % 64, 128 + n % 64]

/-- UTF-8 encoding of a string (Rust `str::as_bytes`). -/
def utf8Encode : List Char → List Nat
  | [] => []
  | c :: cs => utf8EncodeChar c ++ utf8Encode cs

/-- Is `b` a UTF-8 continuation byte (`0x80`-`0xBF`)? -/
def contByte (b : Nat) : Bool := 128 ≤ b && b < 192

/-- UTF-8 decoding with validation, modelling Rust `std::str::from_utf8`:
rejects stray continuation bytes, overlong encodings, surrogates and
out-of-range scalars. -/
def utf8Decode? : List Nat → Option (List Char)
  | [] => some []
  | b :: bs =>
    if b < 128 then
      match utf8Decode? bs with
      | some cs => some (Char.ofNat b :: cs)
      | none => none
    else if b < 194 then none
    else if b < 224 then
      match bs with
      | c1 :: bs2 =>
        if contByte c1 then
          match utf8Decode? bs2 with
          | some cs => some (Char.ofNat ((b - 192) * 64 + (c1 - 128)) :: cs)
          | none => none
        else none
      | [] => none
    else if b < 240 then
      match bs with
      | c1 :: c2 :: bs3 =>
        if contByte c1 && contByte c2 then
          let n := (b - 224) * 4096 + (c1 - 128) * 64 + (c2 - 128)
          if 2048 ≤ n ∧ (n < 55296 ∨ 57344 ≤ n) then
            match utf8Decode? bs3 with
            | some cs => some (Char.ofNat n :: cs)
            | none => none
          else none
        else none
      | _ => none
    else if b < 245 then
      match bs with
      | c1 :: c2 :: c3 :: bs4 =>
        if contByte c1 && contByte c2 && contByte c3 then
          let n := (b - 240) * 262144 + (c1 - 128) * 4096 + (c2 - 128) * 64 + (c3 - 128)
          if 65536 ≤ n ∧ n < 1114112 then
            match utf8Decode? bs4 with
            | some cs => some (Char.ofNat n :: cs)
            | none => none
          else none
        else none
      | _ => none
    else none

/-- Rust `str::split(sep: char)`: split on every occurrence of one character,
keeping empty pieces; the empty string yields one empty piece. -/
def splitOnChar (sep : Char) : List Char → List (List Char)
  | [] => [[]]
  | c :: cs =>
    let r := splitOnChar sep cs
    if c = sep then [] :: r
    else
      match r with
      | t :: ts => (c :: t) :: ts
      | [] => [[c]]

/-- Rust `str::split(pat: &str)` for a two-character pattern `a b` with
`a ≠ b` (used for `"\r\n"` and `": "`; such patterns cannot overlap
themselves, so the right-to-left reconstruction below agrees with Rust's
left-to-right non-overlapping scan). -/
def splitOn2 (a b : Char) : List Char → List (List Char)
  | [] => [[]]
  | c :: cs =>
    match splitOn2 a b cs with
    | h :: t =>
      if c = a then
        match h with
        | b' :: h' => if b' = b then [] :: h' :: t else (c :: h) :: t
        | [] => (c :: h) :: t
      else (c :: h) :: t
    | [] => [[c]]

/-- Rust `str::trim_matches(c: char)`: remove all leading and trailing
occurrences of `c`. -/
def trimChar (ch : Char) (l : List Char) : List Char :=
  ((l.dropWhile (fun c => c = ch)).reverse.dropWhile (fun c => c = ch)).reverse

/-- Lookup in an association list with `String` keys
(Rust `HashMap::get`, order-independent). -/
def lookupAssoc {β : Type} : List (List Char × β) → List Char → Option β
  | [], _ => none
  | (k, v) :: rest, key => if k = key then some v else lookupAssoc rest key

/-- Insert in an association list with `String` keys (Rust `HashMap::insert`):
replace the value of an existing key in place, append a new key. -/
def setAssoc {β : Type} : List (List Char × β) → List Char → β → List (List Char × β)
  | [], key, v => [(key, v)]
  | (k, w) :: rest, key, v =>
    if k = key then (k, v) :: rest else (k, w) :: setAssoc rest key v

/-- Is `c` an ASCII decimal digit? -/
def isDigitChar (c : Char) : Bool := 48 ≤ c.toNat && c.toNat ≤ 57

/-- Numeric value of a digit list (most significant first). -/
def digitsVal : List Char → Nat → Nat
  | [], acc => acc
  | c :: cs, acc => digitsVal cs (acc * 10 + (c.toNat - 48))

/-- Rust `str::parse::<usize>()` (64-bit): optional leading `+`, then one or
more ASCII digits, value below `2^64`. -/
def parseUsize? (s : List Char) : Option Nat :=
  let t := match s with
           | '+' :: rest => rest
           | _ => s
  if t ≠ [] ∧ t.all isDigitChar then
    let v := digitsVal t 0
    if v < 18446744073709551616 then some v else none
  else none

/-- Exact value of a plain decimal literal: `num / den` with `den` the
power of ten given by the number of fractional digits, kept unreduced.
Used to model the `f32` protocol version exactly on the short literals that
occur in HTTP version fields; `f32` equality is value equality, modelled by
`Dec.valEq`. -/
structure Dec where
  num : Int
  den : Nat
deriving DecidableEq

/-- Value equality of two exact decimals (cross multiplication), modelling
Rust `f32` equality `==` on the represented values. -/
def Dec.valEq (a b : Dec) : Bool := a.num * (b.den : Int) == b.num * (a.den : Int)

/-- The value `1.0`. -/
def Dec.one : Dec := { num := 1, den := 1 }

/-- The value `0.0` (initial `Response::new` version). -/
def Dec.zero : Dec := { num := 0, den := 1 }

/-- Rust `str::parse::<f32>()` restricted to plain decimal literals
(`[+-]? digits [. digits]?`, at least one digit), returning the exact
value.  Exponent forms, `inf`/`nan` and `f32` rounding are outside the
model. -/
def parseDecimal? (s : List Char) : Option Dec :=
  let (neg, t) := match s with
                  | '+' :: rest => (false, rest)
                  | '-' :: rest => (true, rest)
                  | _ => (false, s)
  match splitOnChar '.' t with
  | [ip] =>
    if ip ≠ [] ∧ ip.all isDigitChar then
      let n : Int := (digitsVal ip 0 : Int)
      some { num := if neg then -n else n, den := 1 }
    else none
  | [ip, fp] =>
    if (ip ≠ [] ∨ fp ≠ []) ∧ ip.all isDigitChar ∧ fp.all isDigitChar then
      let n : Int := (digitsVal ip 0 : Int) * (10 : Int) ^ fp.length + (digitsVal fp 0 : Int)
      some { num := if neg then -n else n, den := 10 ^ fp.length }
    else none
  | _ => none

/-- Decimal digit character of `d < 10`. -/
def digitCharOf (d : Nat) : Char := Char.ofNat (48 + d)

/-- Decimal digits of a natural number (fuelled helper). -/
def natToCharsAux : Nat → Nat → List Char
  | 0, _ => []
  | fuel + 1, n =>
    if n < 10 then [digitCharOf n]
    else natToCharsAux fuel (n / 10) ++ [digitCharOf (n % 10)]

/-- Rust `usize::to_string` / `u16::to_string`. -/
def natToChars (n : Nat) : List Char := natToCharsAux (n + 1) n

/-- Fractional decimal digits of `num / den` (proper fraction), fuelled;
stops when the remainder is zero. -/
def fracDigits : Nat → Nat → Nat → List Char
  | 0, _, _ => []
  | fuel + 1, num, den =>
    if num = 0 then []
    else digitCharOf (num * 10 / den) :: fracDigits fuel (num * 10 % den) den

/-- Decimal rendering of an exact decimal, modelling Rust `f32::to_string`
on the version values that occur here (`(1.0).to_string() = "1"`,
`(1.1).to_string() = "1.1"`, `(0.0).to_string() = "0"`); trailing zero
digits disappear because the digit loop stops at remainder zero. -/
def decToChars (v : Dec) : List Char :=
  let sign : List Char := if v.num < 0 then ['-'] else []
  let a := v.num.natAbs
  let ip := a / v.den
  let fr := a % v.den
  sign ++ natToChars ip ++ (if fr = 0 then [] else '.' :: fracDigits 64 fr v.den)

/-- src/error.rs `InvalidMethodError` (unit struct). -/
inductive InvalidMethodError where
  | mk
deriving DecidableEq

/-- src/error.rs `RequestParseError`: which part of the message failed. -/
inductive RequestParseError where
  | MalformedRequest
  | Method
  | Route
  | Protocol
  | Host
  | Body
  | Header (name : List Char)
deriving DecidableEq

/-- Derived Rust `Debug` rendering of `RequestParseError`. -/
def RequestParseError.debugFmt : RequestParseError → List Char
  | .MalformedRequest => chars ("MalformedRequest")
  | .Method => chars ("Method")
  | .Route => chars ("Route")
  | .Protocol => chars ("Protocol")
  | .Host => chars ("Host")
  | .Body => chars ("Body")
  | .Header name => chars ("Header(\"") ++ name ++ chars ("\")")

/-- src/error.rs `Display for RequestParseError`:
`"Failed to parse "` followed by the lowercased debug form. -/
def RequestParseError.display (e : RequestParseError) : List Char :=
  chars ("Failed to parse ") ++ asciiLower e.debugFmt

/-- src/error.rs `DefaultError`.  The `Other` variant boxes an arbitrary
error; the model keeps its display string. -/
inductive DefaultError where
  | NotFound
  | RequestParse (e : RequestParseError)
  | Other (msg : List Char)
deriving DecidableEq

/-- src/error.rs `impl From<RequestParseError> for DefaultError`: the
conversion wraps the parse error in the opaque `Other` variant
(not in `RequestParse`). -/
def DefaultError.fromRequestParse (e : RequestParseError) : DefaultError :=
  .Other e.display

/-- src/method.rs `HttpMethod`. -/
inductive HttpMethod where
  | Get
  | Post
  | Put
  | Patch
  | Delete
deriving DecidableEq

/-- Decidable equality of `Except` values with decidable components. -/
instance {e : Type} {a : Type} [DecidableEq e] [DecidableEq a] :
    DecidableEq (Except e a) := fun x y =>
  match x, y with
  | .ok v, .ok w =>
    if h : v = w then .isTrue (by rw [h]) else .isFalse (fun he => h (Except.ok.inj he))
  | .error v, .error w =>
    if h : v = w then .isTrue (by rw [h]) else .isFalse (fun he => h (Except.error.inj he))
  | .ok _, .error _ => .isFalse (fun he => Except.noConfusion he)
  | .error _, .ok _ => .isFalse (fun he => Except.noConfusion he)

/-- src/method.rs `impl TryFrom<&str> for HttpMethod`. -/
def HttpMethod.tryFrom (value : List Char) : Except InvalidMethodError HttpMethod :=
  if value = chars ("GET") then .ok .Get
  else if value = chars ("POST") then .ok .Post
  else if value = chars ("PUT") then .ok .Put
  else if value = chars ("PATCH") then .ok .Patch
  else if value = chars ("DELETE") then .ok .Delete
  else .error .mk

/-- Wire token of each method (the token its `TryFrom` accepts). -/
def HttpMethod.wireName : HttpMethod → List Char
  | .Get => chars ("GET")
  | .Post => chars ("POST")
  | .Put => chars ("PUT")
  | .Patch => chars ("PATCH")
  | .Delete => chars ("DELETE")

/-- Is `c` an ASCII letter? -/
def isAlphaChar (c : Char) : Bool :=
  (97 ≤ c.toNat && c.toNat ≤ 122) || (65 ≤ c.toNat && c.toNat ≤ 90)

/-- Scheme characters accepted by the `url` crate after the first letter. -/
def isSchemeChar (c : Char) : Bool :=
  isAlphaChar c || isDigitChar c || c == '+' || c == '-' || c == '.'

/-- Host characters accepted by the model (registered-name characters). -/
def isHostChar (c : Char) : Bool :=
  isAlphaChar c || isDigitChar c || c == '-' || c == '.' || c == '_' || c == '~'

/-- A valid scheme: one letter, then letters, digits, `+`, `-`, `.`. -/
def validScheme (s : List Char) : Bool :=
  match s with
  | [] => false
  | c :: rest => isAlphaChar c && rest.all isSchemeChar

/-- A valid host for the model: nonempty registered name. -/
def validHost (s : List Char) : Bool :=
  !s.isEmpty && s.all isHostChar

/-- Optional `":" port` suffix of the authority: absent, or `:` followed by
only digits with value below 65536 (the `url` crate accepts an empty port). -/
def parsePortSuffix? : List Char → Option (Option Nat)
  | [] => some none
  | ':' :: ds =>
    if ds.isEmpty then some none
    else if ds.all isDigitChar then
      let v := digitsVal ds 0
      if v < 65536 then some (some v) else none
    else none
  | _ => none

/-- Model of the external `url` crate's `Url` as used by this server. -/
structure Url where
  scheme : List Char
  host : List Char
  port : Option Nat
  path : List Char
  query : List Char
deriving DecidableEq

/-- Model of `url::Url::parse` on strings of the shape
`scheme "://" host path-and-query` as produced by the request decoder:
scheme validation, host validation and lowercasing, optional numeric port,
query extraction, fragment stripping; an absent path becomes `"/"`.
Percent-encoding, dot-segment normalisation and userinfo are outside the
model. -/
def Url.parse? (s : List Char) : Option Url :=
  let scheme := s.takeWhile (fun c => !(c == ':'))
  match s.dropWhile (fun c => !(c == ':')) with
  | ':' :: '/' :: '/' :: rest =>
    if validScheme scheme then
      let authority := rest.takeWhile (fun c => !(c == '/' || c == '?' || c == '#'))
      let tail := rest.dropWhile (fun c => !(c == '/' || c == '?' || c == '#'))
      let host := asciiLower (authority.takeWhile (fun c => !(c == ':')))
      if validHost host then
        match parsePortSuffix? (authority.dropWhile (fun c => !(c == ':'))) with
        | some p =>
          let beforeFrag := tail.takeWhile (fun c => !(c == '#'))
          let path0 := beforeFrag.takeWhile (fun c => !(c == '?'))
          let qpart := beforeFrag.dropWhile (fun c => !(c == '?'))
          let query := match qpart with
                       | '?' :: q => q
                       | _ => []
          let path := if path0.isEmpty then chars ("/") else path0
          some { scheme := scheme, host := host, port := p, path := path, query := query }
        | none => none
      else none
    else none
  | _ => none

/-- Model of `Url::query_pairs`: split the raw query on `&`, skip empty
pieces, split each piece at the first `=` (a missing `=` gives an empty
value).  Percent- and plus-decoding are outside the model. -/
def queryPairs (q : List Char) : List (List Char × List Char) :=
  (splitOnChar '&' q).filterMap (fun piece =>
    if piece.isEmpty then none
    else
      let k := piece.takeWhile (fun c => !(c == '='))
      let v := match piece.dropWhile (fun c => !(c == '=')) with
               | '=' :: v => v
               | _ => []
      some (k, v))

/-- Peer socket address (payload irrelevant to the codec; kept for fidelity). -/
structure SocketAddr where
  ip : List Nat
  port : Nat
deriving DecidableEq

/-- src/message.rs `Request`. -/
structure Request where
  socket_addr : SocketAddr
  method : HttpMethod
  route : List Char
  protocol : List Char
  version : Dec
  host : List Char
  headers : List (List Char × List Char)
  query : List (List Char × List Char)
  body : List Nat
  url : Url
deriving DecidableEq

/-- src/message.rs `Request::new`: route, protocol scheme and host come from
the URL; the query map collects `query_pairs` into a hash map (a duplicate
key keeps the last value). -/
def Request.new (socket_addr : SocketAddr) (method : HttpMethod) (url : Url)
    (version : Dec) (headers : List (List Char × List Char)) (body : List Nat) :
    Request :=
  { socket_addr := socket_addr
    method := method
    route := url.path
    protocol := url.scheme
    version := version
    host := url.host
    headers := headers
    query := (queryPairs url.query).foldl (fun m kv => setAssoc m kv.1 kv.2) []
    body := body
    url := url }

/-- Index of the first `\r\n\r\n` window in the byte buffer
(`bytes.windows(4).position(..)`). -/
def findHeaderEnd : List Nat → Option Nat
  | 13 :: 10 :: 13 :: 10 :: _ => some 0
  | _ :: rest => (findHeaderEnd rest).map (· + 1)
  | [] => none

/-- src/message.rs `Request::from_bytes` header loop: each remaining line is
split on the first `": "`; before it the lowercased header name, after it
the value (a missing separator is a `Header(name)` error); a repeated name
overwrites (last wins). -/
def parseHeaders : List (List Char) → List (List Char × List Char) →
    Except RequestParseError (List (List Char × List Char))
  | [], acc => .ok acc
  | line :: rest, acc =>
    let l := splitOn2 ':' ' ' line
    let header := asciiLower (l.headD [])
    match l.get? 1 with
    | none => .error (.Header header)
    | some value => parseHeaders rest (setAssoc acc header value)

/-- Outcome of `Request::from_bytes`: success, a parse error, or a Rust
panic from an out-of-range slice index. -/
inductive ParseOutcome where
  | ok (r : Request)
  | err (e : RequestParseError)
  | panicked
deriving DecidableEq

/-- Final step of `Request::from_bytes`: format and parse the URL
`"{protocol}://{host}{route}"` (failure is a `Route` error) and assemble the
`Request`. -/
def finishRequest (addr : SocketAddr) (method : HttpMethod)
    (route protocol host : List Char) (version : Dec)
    (headers : List (List Char × List Char)) (body : List Nat) : ParseOutcome :=
  match Url.parse? (protocol ++ chars ("://") ++ host ++ route) with
  | none => .err .Route
  | some url => .ok (Request.new addr method url version headers body)

/-- src/message.rs `Request::from_bytes`.  The Rust body slice
`bytes[head_len + 4 .. head_len + 4 + len]` panics when
`head_len + 4 + len` exceeds the buffer length; the model returns
`.panicked` there. -/
def Request.from_bytes (addr : SocketAddr) (bytes : List Nat) : ParseOutcome :=
  let head_len := (findHeaderEnd bytes).getD bytes.length
  match utf8Decode? (bytes.take head_len) with
  | none => .err .MalformedRequest
  | some data =>
    let lines := splitOn2 '\r' '\n' data
    let first := splitOnChar ' ' (lines.headD [])
    match HttpMethod.tryFrom (first.headD []) with
    | .error _ => .err .Method
    | .ok method =>
      match first.get? 1 with
      | none => .err .Route
      | some route =>
        match first.get? 2 with
        | none => .err .Protocol
        | some vtok =>
          let v := splitOnChar '/' vtok
          let protocol := asciiLower (v.headD [])
          match v.get? 1 with
          | none => .err .Protocol
          | some vstr =>
            match parseDecimal? vstr with
            | none => .err .Protocol
            | some version =>
              match parseHeaders lines.tail [] with
              | .error e => .err e
              | .ok headers =>
                match lookupAssoc headers (chars ("host")) with
                | none => .err .Host
                | some host =>
                  if head_len = bytes.length then
                    finishRequest addr method route protocol host version headers []
                  else
                    match lookupAssoc headers (chars ("content-length")) with
                    | none =>
                      finishRequest addr method route protocol host version headers []
                    | some lenStr =>
                      match parseUsize? lenStr with
                      | none => .err (.Header (chars ("content-length")))
                      | some len =>
                        if head_len + 4 + len ≤ bytes.length then
                          finishRequest addr method route protocol host version headers
                            ((bytes.drop (head_len + 4)).take len)
                        else .panicked

/-- src/message.rs `Request::header`: exact (case-sensitive) lookup in the
header map. -/
def Request.header (r : Request) (header : List Char) : Option (List Char) :=
  lookupAssoc r.headers header

/-- src/http_server.rs `BUFFER_SIZE`. -/
def BUFFER_SIZE : Nat := 2048

/-- src/message.rs `Response`.  `headers` holds the map's contents with keys
in insertion order; the real `HashMap` iterates in an unspecified order (see
`Response.to_bytes`). -/
structure Response where
  protocol : List Char
  version : Dec
  status : Nat
  headers : List (List Char × List Char)
  body : List Nat
deriving DecidableEq

/-- src/message.rs `Response::new`. -/
def Response.new (status : Nat) : Response :=
  { protocol := [], version := Dec.zero, status := status, headers := [], body := [] }

/-- src/message.rs `Response::header` (`HashMap::insert`). -/
def Response.header (r : Response) (header value : List Char) : Response :=
  { r with headers := setAssoc r.headers header value }

/-- The read loop of src/message.rs `Response::set_body` for an in-memory
reader that yields `min(BUFFER_SIZE, remaining)` bytes per `read` call:
extend the accumulator with each chunk and stop after the first short
chunk.  Fuelled recursion; `remaining.length + 1` fuel suffices. -/
def readLoop : Nat → List Nat → List Nat → List Nat
  | 0, _, acc => acc
  | fuel + 1, remaining, acc =>
    let chunk := remaining.take BUFFER_SIZE
    let acc := acc ++ chunk
    if chunk.length < BUFFER_SIZE then acc
    else readLoop fuel (remaining.drop BUFFER_SIZE) acc

/-- src/message.rs `Response::set_body` on in-memory content: extend the
body chunk by chunk, then set `Content-Length` to the total body length and
`Content-Type` to the given type. -/
def Response.set_body (r : Response) (content : List Nat)
    (content_type : List Char) : Response :=
  let body := readLoop (content.length + 1) content r.body
  let r1 := { r with body := body }
  let r2 := r1.header (chars ("Content-Length")) (natToChars body.length)
  r2.header (chars ("Content-Type")) content_type

/-- src/message.rs `Response::text`: UTF-8 bytes of the displayed text with
content type `text/html`. -/
def Response.text (text : List Char) (status : Nat) : Response :=
  (Response.new status).set_body (utf8Encode text) (chars ("text/html"))

/-- The static extension table of src/message.rs
`Response::file_content_type` (match arms in source order). -/
def contentTypeTable : List (List (List Char) × List Char) :=
  [ ([chars ("html"), chars ("htm")], chars ("text/html; charset=utf-8")),
    ([chars ("txt")], chars ("text/plain; charset=utf-8")),
    ([chars ("js")], chars ("application/javascript; charset=utf-8")),
    ([chars ("css")], chars ("text/css; charset=utf-8")),
    ([chars ("xml")], chars ("text/xml; charset=utf-8")),
    ([chars ("csv")], chars ("text/csv; charset=utf-8")),
    ([chars ("json")], chars ("application/json; charset=utf-8")),
    ([chars ("png")], chars ("image/png")),
    ([chars ("jpg"), chars ("jpeg")], chars ("image/jpeg")),
    ([chars ("gif")], chars ("image/gif")),
    ([chars ("oga")], chars ("audio/ogg")),
    ([chars ("ogv")], chars ("video/ogg")),
    ([chars ("ogg"), chars ("ogx")], chars ("application/ogg")),
    ([chars ("pdf")], chars ("application/pdf")),
    ([chars ("zip")], chars ("application/zip")),
    ([chars ("mpeg")], chars ("video/mpeg")),
    ([chars ("mp4")], chars ("video/mp4")),
    ([chars ("wav")], chars ("audio/wav")),
    ([chars ("weba")], chars ("audio/webm")),
    ([chars ("webp")], chars ("image/webp")),
    ([chars ("webm")], chars ("video/webm")),
    ([chars ("aac")], chars ("audio/aac")),
    ([chars ("abw")], chars ("application/x-abiword")),
    ([chars ("arc")], chars ("application/x-freearc")),
    ([chars ("7z")], chars ("application/x-7z-compressed")),
    ([chars ("3g2")], chars ("video/3gpp2")),
    ([chars ("3gp")], chars ("video/3gpp")),
    ([chars ("xul")], chars ("application/vnd.mozilla.xul+xml")),
    ([chars ("xlsx")], chars ("application/vnd.openxmlformats-officedocument.spreadsheetml.sheet")),
    ([chars ("xls")], chars ("application/vnd.ms-excel")),
    ([chars ("xhtml")], chars ("application/xhtml+xml")),
    ([chars ("woff2")], chars ("font/woff2")),
    ([chars ("woff")], chars ("font/woff")),
    ([chars ("tar")], chars ("application/x-tar")),
    ([chars ("tif"), chars ("tiff")], chars ("image/tiff")),
    ([chars ("ts")], chars ("video/mp2t")),
    ([chars ("ttf")], chars ("font/ttf")),
    ([chars ("php")], chars ("application/x-httpd-php")),
    ([chars ("ppt")], chars ("application/vnd.ms-powerpoint")),
    ([chars ("pptx")], chars ("application/vnd.openxmlformats-officedocument.presentationml.presentation")),
    ([chars ("rar")], chars ("application/vnd.rar")),
    ([chars ("rtf")], chars ("application/rtf")),
    ([chars ("sh")], chars ("application/x-sh")),
    ([chars ("svg")], chars ("image/svg+xml")),
    ([chars ("vsd")], chars ("application/vnd.visio")),
    ([chars ("mpkg")], chars ("application/vnd.apple.installer+xml")),
    ([chars ("odp")], chars ("application/vnd.oasis.opendocument.presentation")),
    ([chars ("ods")], chars ("application/vnd.oasis.opendocument.spreadsheet")),
    ([chars ("odt")], chars ("application/vnd.oasis.opendocument.text")),
    ([chars ("opus")], chars ("audio/opus")),
    ([chars ("otf")], chars ("font/otf")),
    ([chars ("jsonld")], chars ("application/ld+json")),
    ([chars ("mid"), chars ("midi")], chars ("audio/midi")),
    ([chars ("mjs")], chars ("text/javascript")),
    ([chars ("mp3")], chars ("audio/mpeg")),
    ([chars ("doc")], chars ("application/msword")),
    ([chars ("docx")], chars ("application/vnd.openxmlformats-officedocument.wordprocessingml.document")),
    ([chars ("eot")], chars ("application/vnd.ms-fontobject")),
    ([chars ("epub")], chars ("application/epub+zip")),
    ([chars ("gz")], chars ("application/gzip")),
    ([chars ("bmp")], chars ("image/bmp")),
    ([chars ("bz")], chars ("application/x-bzip")),
    ([chars ("bz2")], chars ("application/x-bzip2")),
    ([chars ("cda")], chars ("application/x-cdf")),
    ([chars ("csh")], chars ("application/x-csh")),
    ([chars ("avif")], chars ("image/avif")),
    ([chars ("avi")], chars ("video/x-msvideo")),
    ([chars ("azw")], chars ("application/vnd.amazon.ebook")) ]

/-- First-match lookup in the extension table. -/
def findContentType : List (List (List Char) × List Char) → List Char → Option (List Char)
  | [], _ => none
  | (exts, mime) :: rest, ext =>
    if ext ∈ exts then some mime else findContentType rest ext

/-- src/message.rs `Response::file_content_type`: lowercased last piece
after `.` (the whole name when there is no dot), looked up in the static
table, defaulting to `application/octet-stream`. -/
def Response.file_content_type (filename : List Char) : List Char :=
  let extension := asciiLower ((splitOnChar '.' filename).getLastD [])
  (findContentType contentTypeTable extension).getD (chars ("application/octet-stream"))

/-- src/message.rs `Response::file` after a successful read of the file's
bytes (`File::open` and I/O failures are external to the codec). -/
def Response.file (filename : List Char) (content : List Nat) (status : Nat) : Response :=
  (Response.new status).set_body content (Response.file_content_type filename)

/-- src/message.rs `Response::json` after successful serde serialization of
the value to `serialized` (serialization is external to the codec). -/
def Response.json (serialized : List Char) (status : Nat) : Response :=
  (Response.new status).set_body (utf8Encode serialized) (chars ("application/json"))

/-- src/message.rs `Response::fill_from`. -/
def Response.fill_from (r : Response) (request : Request) : Response :=
  { r with version := request.version, protocol := request.protocol }

/-- src/message.rs `Response::to_bytes`.  The Rust loop iterates the header
`HashMap`, whose iteration order is unspecified; `order` is that iteration
order (some permutation of the stored headers). -/
def Response.to_bytes (r : Response) (order : List (List Char × List Char)) : List Nat :=
  let bytes : List Nat := []
  let bytes := bytes ++ utf8Encode (asciiUpper r.protocol ++ chars ("/"))
  let bytes := bytes ++ utf8Encode (decToChars r.version ++ chars (" "))
  let bytes := bytes ++ utf8Encode (natToChars r.status ++ chars ("\r\n"))
  let bytes := order.foldl
    (fun acc kv =>
      acc ++ utf8Encode (kv.1 ++ chars (": ")) ++ utf8Encode (kv.2 ++ chars ("\r\n")))
    bytes
  let bytes := bytes ++ utf8Encode (chars ("\r\n"))
  if r.body.length > 0 then bytes ++ r.body ++ utf8Encode (chars ("\r\n\r\n")) else bytes

/-- src/error.rs `DEFAULT_HANDLER` (its logging side effect is omitted;
the request argument is unused beyond logging). -/
def DEFAULT_HANDLER (_req : Request) (err : DefaultError) : Response :=
  match err with
  | .NotFound => Response.text (chars ("Not found")) 404
  | .RequestParse _ => Response.text (chars ("Malformed request")) 500
  | .Other _ => Response.text (chars ("Internal server error")) 500

/-- src/route.rs `NOT_FOUND_ACTION`. -/
def NOT_FOUND_ACTION : Request → Except DefaultError Response :=
  fun _ => .error .NotFound

/-- src/route.rs `RoutingTreeNode`: an action and literal-segment children
(the child `HashMap` is an association list; only lookup and in-place
insert are used, so list order is irrelevant to routing). -/
inductive RoutingTreeNode (α : Type) where
  | mk (action : α) (children : List (List Char × RoutingTreeNode α))

/-- The node's action. -/
def RoutingTreeNode.action {α : Type} : RoutingTreeNode α → α
  | .mk a _ => a

/-- The node's children. -/
def RoutingTreeNode.children {α : Type} :
    RoutingTreeNode α → List (List Char × RoutingTreeNode α)
  | .mk _ cs => cs

/-- src/route.rs `RoutingTreeNode::new`. -/
def RoutingTreeNode.new {α : Type} (action : α) : RoutingTreeNode α := .mk action []

/-- src/route.rs `RoutingTreeNode::get`: an exhausted or empty next segment
yields the current node's action; otherwise descend into the matching
child, or fail. -/
def RoutingTreeNode.get {α : Type} : RoutingTreeNode α → List (List Char) → Option α
  | n, [] => some n.action
  | n, [] :: _ => some n.action
  | n, (c :: cs) :: rest =>
    match lookupAssoc n.children (c :: cs) with
    | some child => child.get rest
    | none => none

/-- src/route.rs `RoutingTreeNode::add`: an exhausted or empty next segment
assigns the action to the current node; otherwise ensure the child exists
(a missing child is created pre-populated with the not-found action) and
recurse into it. -/
def RoutingTreeNode.add {α : Type} :
    RoutingTreeNode α → List (List Char) → α → α → RoutingTreeNode α
  | n, [], a, _ => .mk a n.children
  | n, [] :: _, a, _ => .mk a n.children
  | n, (c :: cs) :: rest, a, nf =>
    let child := match lookupAssoc n.children (c :: cs) with
                 | some child => child
                 | none => RoutingTreeNode.new nf
    .mk n.action (setAssoc n.children (c :: cs) (child.add rest a nf))

mutual

/-- All actions stored in a routing tree (the node's own action and,
recursively, all the children's). -/
def RoutingTreeNode.actionsList {α : Type} : RoutingTreeNode α → List α
  | .mk a children => a :: actionsOfChildren children

/-- All actions stored under a child list. -/
def actionsOfChildren {α : Type} : List (List Char × RoutingTreeNode α) → List α
  | [] => []
  | (_, c) :: rest => c.actionsList ++ actionsOfChildren rest

end

/-- src/route.rs `Router`: one tree per method (the source's five-element
array indexed by `method as usize` is modelled as a total function on the
five methods) plus the shared not-found action. -/
structure Router (α : Type) where
  route_tree : HttpMethod → RoutingTreeNode α
  not_found_action : α

/-- src/route.rs `Router::new`: every tree root starts with the not-found
action. -/
def Router.new {α : Type} (not_found_action : α) : Router α :=
  { route_tree := fun _ => RoutingTreeNode.new not_found_action
    not_found_action := not_found_action }

/-- src/route.rs `Router::split_route`: trim leading and trailing slashes,
then split on `/`. -/
def splitRoute (route : List Char) : List (List Char) :=
  splitOnChar '/' (trimChar '/' route)

/-- src/route.rs `Router::get`: tree lookup in the method's tree, falling
back to the router's not-found action. -/
def Router.get {α : Type} (r : Router α) (method : HttpMethod) (route : List Char) : α :=
  match (r.route_tree method).get (splitRoute route) with
  | some action => action
  | none => r.not_found_action

/-- src/route.rs `Router::add`: insert into the method's tree. -/
def Router.add {α : Type} (r : Router α) (method : HttpMethod) (route : List Char)
    (action : α) : Router α :=
  { r with route_tree := fun m =>
      if m = method then
        (r.route_tree method).add (splitRoute route) action r.not_found_action
      else r.route_tree m }

/-- Segments up to (not including) the first empty segment: both
`RoutingTreeNode.get` and `RoutingTreeNode.add` stop their walk there. -/
def canonSegs (segs : List (List Char)) : List (List Char) :=
  segs.takeWhile (fun seg => !seg.isEmpty)

/-- The node a route addresses in a tree: the canonical segments of its
split form. -/
def canonRoute (route : List Char) : List (List Char) :=
  canonSegs (splitRoute route)

/-- src/http_server.rs line 94, the keep-alive check of the session loop:
`request.version() == 1.0 || Some("close") == request.header("Connection")`. -/
def shouldClose (request : Request) : Bool :=
  request.version.valEq Dec.one ||
    request.header (chars ("Connection")) == some (chars ("close"))

/-- Result of one iteration of the session loop. -/
inductive SessionStep where
  | panicked
  | responded (response : Response) (close : Bool)
  | idleCheck
deriving DecidableEq

/-- One iteration of the session loop of src/http_server.rs
`HttpServer::handle_client` after the read phase accumulated `data`
(socket reads/writes and the idle timer are I/O, outside the model): with
nonempty data, decode — the `.unwrap()` panics the connection's thread on a
decode error — then route, run the handler or the error translator, stamp
the response from the request, and compute the keep-alive decision. -/
def sessionStep {E : Type} (router : Router (Request → Except E Response))
    (error_handler : Request → E → Response) (addr : SocketAddr)
    (data : List Nat) : SessionStep :=
  if data.length > 0 then
    match Request.from_bytes addr data with
    | .panicked => .panicked
    | .err _ => .panicked
    | .ok request =>
      let action := router.get request.method request.route
      let response := match action request with
                      | .ok res => res
                      | .error err => error_handler request err
      let response := response.fill_from request
      .responded response (shouldClose request)
  else .idleCheck

/-- Defined from the spec's words for the response wire format: one header
line `Name: Value CRLF`. -/
def specHeaderLine (kv : List Char × List Char) : List Nat :=
  utf8Encode (kv.1 ++ chars (": ") ++ kv.2 ++ chars ("\r\n"))

/-- Defined from the spec's words: status line `SCHEME/VERSION STATUS CRLF`,
then the header lines in the given order, then `CRLF`, then the body (if
non-empty) followed by `CRLF CRLF`. -/
def specResponseLayout (r : Response) (order : List (List Char × List Char)) : List Nat :=
  utf8Encode (asciiUpper r.protocol ++ chars ("/") ++ decToChars r.version
      ++ chars (" ") ++ natToChars r.status ++ chars ("\r\n"))
    ++ (order.map specHeaderLine).flatten
    ++ utf8Encode (chars ("\r\n"))
    ++ (if r.body = [] then [] else r.body ++ utf8Encode (chars ("\r\n\r\n")))

/-- The claim's reading of the encoder: the spec layout with the headers in
insertion order. -/
def specResponseInsertionLayout (r : Response) : List Nat :=
  specResponseLayout r r.headers

/-- Does the parse outcome succeed with a request satisfying `p`? -/
def ParseOutcome.okSatisfies (o : ParseOutcome) (p : Request → Bool) : Bool :=
  match o with
  | .ok r => p r
  | _ => false

/-- Does the string contain an ASCII uppercase letter? -/
def hasUpperAscii (s : List Char) : Bool :=
  s.any (fun c => 65 ≤ c.toNat && c.toNat ≤ 90)

/-- A fixed peer address for the concrete evaluations. -/
def addr0 : SocketAddr := { ip := [127, 0, 0, 1], port := 8080 }

/-- A concrete request value (the default error translator ignores its
request argument beyond logging). -/
def dummyReq : Request :=
  { socket_addr := addr0, method := .Get, route := chars ("/"),
    protocol := chars ("http"), version := Dec.one, host := chars ("x"),
    headers := [], query := [], body := [],
    url := { scheme := chars ("http"), host := chars ("x"), port := none,
             path := chars ("/"), query := [] } }

/-- The request decoded from a concrete message that carries a
`Connection: close` header line, extracted for the header-lookup witness. -/
def c10req : Request :=
  match Request.from_bytes addr0
      (utf8Encode (chars ("GET / HTTP/1.1\r\nHost: x\r\nConnection: close"))) with
  | .ok r => r
  | _ => dummyReq

/-- A concrete response with two headers inserted in the order `Aa`, `Bb`. -/
def respC6 : Response :=
  ((Response.new 200).header (chars ("Aa")) (chars ("1"))).header
    (chars ("Bb")) (chars ("2"))

/-- The swapped iteration order for `respC6` (a permutation of its stored
headers, as a hash map may iterate them). -/
def orderC6 : List (List Char × List Char) :=
  [(chars ("Bb"), chars ("2")), (chars ("Aa"), chars ("1"))]

/-- All keys of a header map are lowercase-normalised (fixed by
`asciiLower`). -/
def lowerKeys {β : Type} (l : List (List Char × β)) : Prop :=
  ∀ kv ∈ l, asciiLower kv.1 = kv.1

/-- Wire bytes of a 1.1 request carrying a `Connection: close` header. -/
def c3bytes : List Nat :=
  utf8Encode (chars ("GET / HTTP/1.1\r\nHost: x\r\nConnection: close\r\n\r\n"))

/-- Concatenation homomorphism of UTF-8 encoding. -/
theorem utf8Encode_append (a b : List Char) :
    utf8Encode (a ++ b) = utf8Encode a ++ utf8Encode b := by
  induction a with
  | nil => simp [utf8Encode]
  | cons c cs ih => simp [utf8Encode, ih, List.append_assoc]

/-- Looking up the key just inserted yields the inserted value. -/
theorem lookupAssoc_setAssoc_self {β : Type} (l : List (List Char × β))
    (k : List Char) (v : β) : lookupAssoc (setAssoc l k v) k = some v := by
  induction l with
  | nil => simp [setAssoc, lookupAssoc]
  | cons kv rest ih =>
    obtain ⟨k0, w⟩ := kv
    by_cases h : k0 = k
    · simp [setAssoc, h, lookupAssoc]
    · simp [setAssoc, h, lookupAssoc, ih]

/-- Inserting one key leaves lookups of other keys unchanged. -/
theorem lookupAssoc_setAssoc_ne {β : Type} (l : List (List Char × β))
    (k k' : List Char) (v : β) (h : k' ≠ k) :
    lookupAssoc (setAssoc l k v) k' = lookupAssoc l k' := by
  induction l with
  | nil => simp [setAssoc, lookupAssoc, Ne.symm h]
  | cons kv rest ih =>
    obtain ⟨k0, w⟩ := kv
    by_cases h0 : k0 = k
    · subst h0
      simp [setAssoc, lookupAssoc, Ne.symm h]
    · by_cases h1 : k0 = k'
      · subst h1
        simp [setAssoc, lookupAssoc, h0]
      · simp [setAssoc, h0, lookupAssoc, h1, ih]

/-- The chunked read loop delivers exactly the remaining bytes when given
enough fuel. -/
theorem readLoop_eq : ∀ (fuel : Nat) (remaining acc : List Nat),
    remaining.length ≤ fuel * BUFFER_SIZE →
    readLoop fuel remaining acc = acc ++ remaining := by
  intro fuel
  induction fuel with
  | zero =>
    intro remaining acc h
    have h0 : remaining = [] := List.eq_nil_of_length_eq_zero (by omega)
    subst h0; simp [readLoop]
  | succ f ih =>
    intro remaining acc h
    by_cases hlt : remaining.length < BUFFER_SIZE
    · have ht : remaining.take BUFFER_SIZE = remaining :=
        List.take_of_length_le (by omega)
      simp [readLoop, ht, hlt]
    · have hlen : (remaining.take BUFFER_SIZE).length = BUFFER_SIZE := by
        rw [List.length_take]; omega
      have hdrop : (remaining.drop BUFFER_SIZE).length ≤ f * BUFFER_SIZE := by
        rw [List.length_drop]
        have hb : BUFFER_SIZE = 2048 := rfl
        rw [hb] at h ⊢
        omega
      have hstep : readLoop (f + 1) remaining acc
          = readLoop f (remaining.drop BUFFER_SIZE) (acc ++ remaining.take BUFFER_SIZE) := by
        simp only [readLoop]
        rw [if_neg (by omega)]
      rw [hstep, ih _ _ hdrop, List.append_assoc, List.take_append_drop]

/-- `set_body` appends exactly the given content and records its length and
the content type in the header map. -/
theorem set_body_spec (r : Response) (content : List Nat) (ct : List Char) :
    (r.set_body content ct).body = r.body ++ content ∧
    lookupAssoc (r.set_body content ct).headers (chars ("Content-Length"))
      = some (natToChars (r.body ++ content).length) ∧
    lookupAssoc (r.set_body content ct).headers (chars ("Content-Type")) = some ct := by
  have hb : readLoop (content.length + 1) content r.body = r.body ++ content :=
    readLoop_eq _ _ _ (by have hb : BUFFER_SIZE = 2048 := rfl; rw [hb]; omega)
  unfold Response.set_body Response.header
  rw [hb]
  refine ⟨rfl, ?_, ?_⟩
  · rw [lookupAssoc_setAssoc_ne _ _ _ _ (by decide), lookupAssoc_setAssoc_self]
  · rw [lookupAssoc_setAssoc_self]

/-- Claim C5: every body-setting constructor (literal text, file contents,
serialized JSON) writes exactly its content as the body, sets
`Content-Length` to the exact byte length of that body, and sets
`Content-Type` (to the explicit MIME type or the extension-table lookup). -/
theorem c5_constructors_set_length_and_type :
    (∀ (text : List Char) (status : Nat),
      (Response.text text status).body = utf8Encode text ∧
      lookupAssoc (Response.text text status).headers (chars ("Content-Length"))
        = some (natToChars (utf8Encode text).length) ∧
      lookupAssoc (Response.text text status).headers (chars ("Content-Type"))
        = some (chars ("text/html"))) ∧
    (∀ (filename : List Char) (content : List Nat) (status : Nat),
      (Response.file filename content status).body = content ∧
      lookupAssoc (Response.file filename content status).headers (chars ("Content-Length"))
        = some (natToChars content.length) ∧
      lookupAssoc (Response.file filename content status).headers (chars ("Content-Type"))
        = some (Response.file_content_type filename)) ∧
    (∀ (serialized : List Char) (status : Nat),
      (Response.json serialized status).body = utf8Encode serialized ∧
      lookupAssoc (Response.json serialized status).headers (chars ("Content-Length"))
        = some (natToChars (utf8Encode serialized).length) ∧
      lookupAssoc (Response.json serialized status).headers (chars ("Content-Type"))
        = some (chars ("application/json"))) := by
  refine ⟨?_, ?_, ?_⟩
  · intro text status
    have h := set_body_spec (Response.new status) (utf8Encode text) (chars ("text/html"))
    simpa [Response.text, Response.new] using h
  · intro filename content status
    have h := set_body_spec (Response.new status) content (Response.file_content_type filename)
    simpa [Response.file, Response.new] using h
  · intro serialized status
    have h := set_body_spec (Response.new status) (utf8Encode serialized)
      (chars ("application/json"))
    simpa [Response.json, Response.new] using h

/-- The imperative header loop of the encoder flattens to one header line
per map entry, in iteration order. -/
theorem headers_foldl_eq (order : List (List Char × List Char)) : ∀ (init : List Nat),
    order.foldl (fun acc kv =>
        acc ++ utf8Encode (kv.1 ++ chars (": ")) ++ utf8Encode (kv.2 ++ chars ("\r\n"))) init
      = init ++ (order.map specHeaderLine).flatten := by
  induction order with
  | nil => intro init; simp
  | cons kv rest ih =>
    intro init
    simp only [List.foldl_cons, List.map_cons, List.flatten_cons]
    rw [ih]
    simp [specHeaderLine, utf8Encode_append, List.append_assoc]

/-- Claim C6 (amended): for every response and every iteration order of its
header map, the encoder emits exactly the status line
`SCHEME/VERSION STATUS\r\n`, then one `Name: Value\r\n` line per header in
that iteration order, then a blank line, then — only when the body is
non-empty — the body bytes followed by `\r\n\r\n`.  (The iteration order of
the Rust `HashMap` is unspecified, not the insertion order; see
`c6_insertion_order_counterexample`.) -/
theorem c6_response_encoding (r : Response) (order : List (List Char × List Char)) :
    r.to_bytes order = specResponseLayout r order := by
  unfold Response.to_bytes specResponseLayout
  dsimp only
  rw [headers_foldl_eq]
  cases hb : r.body with
  | nil => simp [utf8Encode_append, List.append_assoc]
  | cons b bs => simp [utf8Encode_append, List.append_assoc]

/-- Claim C6, counterexample to the claim as stated: a legitimate hash-map
iteration order (a permutation of the stored headers) produces output that
differs from the insertion-order layout, so the encoder does not emit
headers in the order they were inserted. -/
theorem c6_insertion_order_counterexample :
    List.Perm orderC6 respC6.headers ∧
    respC6.to_bytes orderC6 ≠ specResponseInsertionLayout respC6 := by
  exact ⟨by decide, by decide⟩

/-- Claim C7, counterexample to the claim as stated: a parse failure
converted into the default error kind via its `From<RequestParseError>`
conversion lands in the opaque `Other` variant, so the default translator
answers it with the `Internal server error` body, not with
`Malformed request`. -/
theorem c7_converted_parse_failure_counterexample :
    DefaultError.fromRequestParse .MalformedRequest
        = .Other (RequestParseError.display .MalformedRequest) ∧
    (DEFAULT_HANDLER dummyReq (DefaultError.fromRequestParse .MalformedRequest)).body
      = utf8Encode (chars ("Internal server error")) ∧
    (DEFAULT_HANDLER dummyReq (DefaultError.fromRequestParse .MalformedRequest)).body
      ≠ utf8Encode (chars ("Malformed request")) := by
  exact ⟨by decide, by decide, by decide⟩

/-- Claim C7 (amended): the default error translator returns status 404 for
the not-found error, status 500 with body `Malformed request` for errors
carried in the parse-failure variant, and status 500 with body
`Internal server error` for every opaque failure; however the conversion
from `RequestParseError` produces the opaque variant, so converted parse
failures are answered with the `Internal server error` body. -/
theorem c7_default_error_translator (req : Request) (e : RequestParseError)
    (msg : List Char) :
    (DEFAULT_HANDLER req .NotFound).status = 404 ∧
    (DEFAULT_HANDLER req (.RequestParse e)).status = 500 ∧
    (DEFAULT_HANDLER req (.RequestParse e)).body
      = utf8Encode (chars ("Malformed request")) ∧
    (DEFAULT_HANDLER req (.Other msg)).status = 500 ∧
    (DEFAULT_HANDLER req (.Other msg)).body
      = utf8Encode (chars ("Internal server error")) ∧
    DefaultError.fromRequestParse e = .Other e.display := by
  refine ⟨rfl, rfl, ?_, rfl, ?_, rfl⟩ <;> rfl

/-- Claim C1: on a buffer whose `Content-Length` (5) exceeds the bytes
available after the header/body delimiter (2), request decoding panics on
the out-of-range body slice instead of returning a parse error. -/
theorem c1_content_length_overrun_panics :
    Request.from_bytes addr0
      (utf8Encode (chars ("GET / HTTP/1.1\r\nHost: x\r\nContent-Length: 5\r\n\r\nhi")))
      = .panicked := by decide

/-- Claim C2: on a nonempty buffer that fails to decode (here `xyz`, an
invalid method), the session loop's `.unwrap()` panics the connection's
thread: the step ends in a panic, not in a response produced by the error
translator. -/
theorem c2_undecodable_data_panics_connection {E : Type}
    (router : Router (Request → Except E Response))
    (error_handler : Request → E → Response) (addr : SocketAddr) :
    Request.from_bytes addr (utf8Encode (chars ("xyz"))) = .err .Method ∧
    sessionStep router error_handler addr (utf8Encode (chars ("xyz"))) = .panicked := by
  exact ⟨rfl, rfl⟩

/-- Claim C3: a decoded 1.1 request that carries `Connection: close` (stored
under the lowercased key `connection`) is not detected by the keep-alive
check, because `request.header("Connection")` is a case-sensitive lookup
that misses the lowercased key: the session loop answers it with
`close = false` and keeps the connection open. -/
theorem c3_connection_close_never_detected :
    (Request.from_bytes addr0 c3bytes).okSatisfies
      (fun r => lookupAssoc r.headers (chars ("connection")) == some (chars ("close"))
        && r.version.valEq { num := 11, den := 10 }
        && !(shouldClose r)) = true ∧
    ∀ {E : Type} (router : Router (Request → Except E Response))
      (error_handler : Request → E → Response),
      ∃ resp, sessionStep router error_handler addr0 c3bytes = .responded resp false := by
  constructor
  · decide
  · intro E router error_handler
    exact ⟨_, rfl⟩

/-- Claim C8: each token of the closed set maps to its method; every other
token (shown for all strings) is rejected with the invalid-method error; a
request line headed by each valid token decodes to the matching method,
while a lowercase token or an empty buffer fails with the method error. -/
theorem c8_method_token_decoding :
    (∀ m : HttpMethod, HttpMethod.tryFrom m.wireName = .ok m) ∧
    (∀ s : List Char, s ≠ chars ("GET") → s ≠ chars ("POST") → s ≠ chars ("PUT") →
      s ≠ chars ("PATCH") → s ≠ chars ("DELETE") →
      HttpMethod.tryFrom s = .error .mk) ∧
    (∀ m : HttpMethod, (Request.from_bytes addr0
        (utf8Encode (m.wireName ++ chars (" / HTTP/1.1\r\nHost: x")))).okSatisfies
        (fun r => r.method == m) = true) ∧
    Request.from_bytes addr0 (utf8Encode (chars ("get / HTTP/1.1\r\nHost: x")))
      = .err .Method ∧
    Request.from_bytes addr0 [] = .err .Method := by
  refine ⟨?_, ?_, ?_, by decide, by decide⟩
  · intro m; cases m <;> decide
  · intro s h1 h2 h3 h4 h5
    simp [HttpMethod.tryFrom, h1, h2, h3, h4, h5]
  · intro m; cases m <;> decide

/-- Witness for the method-token theorem at the concrete token `LINK`. -/
theorem c8_method_token_decoding_witness :
    HttpMethod.tryFrom (chars ("LINK")) = .error .mk :=
  c8_method_token_decoding.2.1 (chars ("LINK")) (by decide) (by decide) (by decide)
    (by decide) (by decide)

/-- An action found through a child lookup is among the child list's
actions. -/
theorem mem_actionsOfChildren_of_lookup {α : Type} (x : α) :
    ∀ (children : List (List Char × RoutingTreeNode α)) (s : List Char)
      (c : RoutingTreeNode α), lookupAssoc children s = some c →
      x ∈ c.actionsList → x ∈ actionsOfChildren children := by
  intro children
  induction children with
  | nil => intro s c hc; simp [lookupAssoc] at hc
  | cons kv rest ih =>
    obtain ⟨k, child⟩ := kv
    intro s c hc hx
    simp only [lookupAssoc] at hc
    by_cases hk : k = s
    · rw [if_pos hk] at hc
      injection hc with hc
      subst hc
      simp only [actionsOfChildren, List.mem_append]
      exact Or.inl hx
    · rw [if_neg hk] at hc
      simp only [actionsOfChildren, List.mem_append]
      exact Or.inr (ih s c hc hx)

/-- Any action a tree lookup returns is stored somewhere in the tree. -/
theorem get_some_mem_actionsList {α : Type} (x : α) :
    ∀ (segs : List (List Char)) (n : RoutingTreeNode α),
      n.get segs = some x → x ∈ n.actionsList := by
  intro segs
  induction segs with
  | nil =>
    intro n h
    obtain ⟨a, children⟩ := n
    simp only [RoutingTreeNode.get] at h
    injection h with h
    simp [RoutingTreeNode.actionsList, RoutingTreeNode.action] at h ⊢
    exact Or.inl h.symm
  | cons seg rest ih =>
    intro n h
    obtain ⟨a, children⟩ := n
    cases seg with
    | nil =>
      simp only [RoutingTreeNode.get] at h
      injection h with h
      simp [RoutingTreeNode.actionsList, RoutingTreeNode.action] at h ⊢
      exact Or.inl h.symm
    | cons c0 cs =>
      simp only [RoutingTreeNode.get] at h
      cases hl : lookupAssoc (RoutingTreeNode.mk a children).children (c0 :: cs) with
      | none => rw [hl] at h; simp at h
      | some child =>
        rw [hl] at h
        simp only [RoutingTreeNode.actionsList, List.mem_cons]
        refine Or.inr (mem_actionsOfChildren_of_lookup x children (c0 :: cs) child ?_ (ih child h))
        simpa [RoutingTreeNode.children] using hl

/-- `Router::get` as a defaulted tree lookup. -/
theorem router_get_eq_getD {α : Type} (r : Router α) (m : HttpMethod) (p : List Char) :
    r.get m p = ((r.route_tree m).get (splitRoute p)).getD r.not_found_action := by
  unfold Router.get
  cases hg : (r.route_tree m).get (splitRoute p) <;> simp [hg]

/-- A routing lookup always yields a stored action or the router's
not-found action. -/
theorem router_get_total {α : Type} (r : Router α) (m : HttpMethod) (p : List Char) :
    r.get m p ∈ (r.route_tree m).actionsList ∨ r.get m p = r.not_found_action := by
  rw [router_get_eq_getD]
  cases hg : (r.route_tree m).get (splitRoute p) with
  | none => exact Or.inr rfl
  | some a => exact Or.inl (get_some_mem_actionsList a _ _ hg)

/-- Claim C4: in a router with only `h` registered under `m` at `/a/b`,
resolution of `/a/b` and `/a/b/` yields `h`, resolution of `/a` and
`/a/b/c` yields the not-found handler (no partial prefix match); and every
lookup on every router yields a stored action or the not-found action,
never no result. -/
theorem c4_routing_exactness {α : Type} (h nf : α) (m : HttpMethod) :
    ((Router.new nf).add m (chars ("/a/b")) h).get m (chars ("/a/b")) = h ∧
    ((Router.new nf).add m (chars ("/a/b")) h).get m (chars ("/a/b/")) = h ∧
    ((Router.new nf).add m (chars ("/a/b")) h).get m (chars ("/a")) = nf ∧
    ((Router.new nf).add m (chars ("/a/b")) h).get m (chars ("/a/b/c")) = nf ∧
    ∀ (r : Router α) (m' : HttpMethod) (p : List Char),
      r.get m' p ∈ (r.route_tree m').actionsList ∨ r.get m' p = r.not_found_action := by
  refine ⟨?_, ?_, ?_, ?_, fun r m' p => router_get_total r m' p⟩ <;> (cases m <;> rfl)

/-- Canonical segments of a list headed by a nonempty segment. -/
theorem canonSegs_cons_cons (c : Char) (cs : List Char) (t : List (List Char)) :
    canonSegs ((c :: cs) :: t) = (c :: cs) :: canonSegs t := rfl

/-- Canonical segments of a list headed by an empty segment. -/
theorem canonSegs_cons_nil (t : List (List Char)) : canonSegs ([] :: t) = [] := rfl

/-- Looking up any route with a different canonical path in a freshly
created branch yields the pre-populated not-found action (after
defaulting). -/
theorem get_add_fresh_ne {α : Type} (a nf : α) :
    ∀ (psegs qsegs : List (List Char)), canonSegs qsegs ≠ canonSegs psegs →
      ((((RoutingTreeNode.new nf).add psegs a nf)).get qsegs).getD nf = nf := by
  intro psegs
  induction psegs with
  | nil =>
    intro qsegs hne
    match qsegs with
    | [] => exact absurd rfl hne
    | [] :: t => exact absurd rfl hne
    | (d :: ds) :: qrest => rfl
  | cons seg prest ih =>
    cases seg with
    | nil =>
      intro qsegs hne
      match qsegs with
      | [] => exact absurd rfl hne
      | [] :: t => exact absurd rfl hne
      | (d :: ds) :: qrest => rfl
    | cons c0 cs =>
      intro qsegs hne
      match qsegs with
      | [] => rfl
      | [] :: t => rfl
      | (d :: ds) :: qrest =>
        by_cases hd : (d :: ds) = (c0 :: cs)
        · rw [hd] at hne ⊢
          have hcanon : canonSegs qrest ≠ canonSegs prest := by
            intro he
            exact hne (by rw [canonSegs_cons_cons, canonSegs_cons_cons, he])
          have hred := ih qrest hcanon
          simpa [RoutingTreeNode.add, RoutingTreeNode.new, RoutingTreeNode.get,
            RoutingTreeNode.children, RoutingTreeNode.action, setAssoc,
            lookupAssoc] using hred
        · simp [RoutingTreeNode.add, RoutingTreeNode.new, RoutingTreeNode.get,
            RoutingTreeNode.children, RoutingTreeNode.action, setAssoc, lookupAssoc,
            Ne.symm hd]

/-- Registration along one canonical path does not change the defaulted
lookup result of any route with a different canonical path. -/
theorem get_add_ne {α : Type} (a nf : α) :
    ∀ (psegs qsegs : List (List Char)) (n : RoutingTreeNode α),
      canonSegs qsegs ≠ canonSegs psegs →
      (((n.add psegs a nf)).get qsegs).getD nf = (n.get qsegs).getD nf := by
  intro psegs
  induction psegs with
  | nil =>
    intro qsegs n hne
    obtain ⟨na, nch⟩ := n
    match qsegs with
    | [] => exact absurd rfl hne
    | [] :: t => exact absurd rfl hne
    | (d :: ds) :: qrest =>
      simp [RoutingTreeNode.add, RoutingTreeNode.get, RoutingTreeNode.children]
  | cons seg prest ih =>
    cases seg with
    | nil =>
      intro qsegs n hne
      obtain ⟨na, nch⟩ := n
      match qsegs with
      | [] => exact absurd rfl hne
      | [] :: t => exact absurd rfl hne
      | (d :: ds) :: qrest =>
        simp [RoutingTreeNode.add, RoutingTreeNode.get, RoutingTreeNode.children]
    | cons c0 cs =>
      intro qsegs n hne
      obtain ⟨na, nch⟩ := n
      match qsegs with
      | [] =>
        simp [RoutingTreeNode.add, RoutingTreeNode.get, RoutingTreeNode.action]
      | [] :: t =>
        simp [RoutingTreeNode.add, RoutingTreeNode.get, RoutingTreeNode.action]
      | (d :: ds) :: qrest =>
        by_cases hd : (d :: ds) = (c0 :: cs)
        · rw [hd] at hne ⊢
          have hcanon : canonSegs qrest ≠ canonSegs prest := by
            intro he
            exact hne (by rw [canonSegs_cons_cons, canonSegs_cons_cons, he])
          cases hl : lookupAssoc nch (c0 :: cs) with
          | some c1 =>
            have hLeft : ((RoutingTreeNode.mk na nch).add ((c0 :: cs) :: prest) a nf).get
                ((c0 :: cs) :: qrest) = (c1.add prest a nf).get qrest := by
              simp [RoutingTreeNode.add, RoutingTreeNode.get, RoutingTreeNode.children,
                hl, lookupAssoc_setAssoc_self]
            have hRight : (RoutingTreeNode.mk na nch).get ((c0 :: cs) :: qrest)
                = c1.get qrest := by
              simp [RoutingTreeNode.get, RoutingTreeNode.children, hl]
            rw [hLeft, hRight]
            exact ih qrest c1 hcanon
          | none =>
            have hLeft : ((RoutingTreeNode.mk na nch).add ((c0 :: cs) :: prest) a nf).get
                ((c0 :: cs) :: qrest) = ((RoutingTreeNode.new nf).add prest a nf).get qrest := by
              simp [RoutingTreeNode.add, RoutingTreeNode.get, RoutingTreeNode.children,
                hl, lookupAssoc_setAssoc_self]
            have hRight : (RoutingTreeNode.mk na nch).get ((c0 :: cs) :: qrest) = none := by
              simp [RoutingTreeNode.get, RoutingTreeNode.children, hl]
            rw [hLeft, hRight]
            simpa using get_add_fresh_ne a nf prest qrest hcanon
        · have hLeft : ((RoutingTreeNode.mk na nch).add ((c0 :: cs) :: prest) a nf).get
              ((d :: ds) :: qrest) = (RoutingTreeNode.mk na nch).get ((d :: ds) :: qrest) := by
            simp only [RoutingTreeNode.add, RoutingTreeNode.get, RoutingTreeNode.children]
            rw [lookupAssoc_setAssoc_ne _ _ _ _ hd]
          rw [hLeft]

/-- After registering along a canonical path, looking up any route with the
same canonical path yields the registered action. -/
theorem get_add_eq {α : Type} (a nf : α) :
    ∀ (psegs qsegs : List (List Char)) (n : RoutingTreeNode α),
      canonSegs qsegs = canonSegs psegs →
      ((n.add psegs a nf)).get qsegs = some a := by
  intro psegs
  induction psegs with
  | nil =>
    intro qsegs n he
    obtain ⟨na, nch⟩ := n
    match qsegs with
    | [] => simp [RoutingTreeNode.add, RoutingTreeNode.get, RoutingTreeNode.action]
    | [] :: t => simp [RoutingTreeNode.add, RoutingTreeNode.get, RoutingTreeNode.action]
    | (d :: ds) :: qrest =>
      rw [canonSegs_cons_cons] at he
      simp [canonSegs] at he
  | cons seg prest ih =>
    cases seg with
    | nil =>
      intro qsegs n he
      obtain ⟨na, nch⟩ := n
      match qsegs with
      | [] => simp [RoutingTreeNode.add, RoutingTreeNode.get, RoutingTreeNode.action]
      | [] :: t => simp [RoutingTreeNode.add, RoutingTreeNode.get, RoutingTreeNode.action]
      | (d :: ds) :: qrest =>
        rw [canonSegs_cons_cons, canonSegs_cons_nil] at he
        simp at he
    | cons c0 cs =>
      intro qsegs n he
      obtain ⟨na, nch⟩ := n
      match qsegs with
      | [] =>
        rw [canonSegs_cons_cons] at he
        simp [canonSegs] at he
      | [] :: t =>
        rw [canonSegs_cons_nil, canonSegs_cons_cons] at he
        simp at he
      | (d :: ds) :: qrest =>
        rw [canonSegs_cons_cons, canonSegs_cons_cons] at he
        have hd : (d :: ds) = (c0 :: cs) := (List.cons.inj he).1
        have he2 : canonSegs qrest = canonSegs prest := (List.cons.inj he).2
        rw [hd]
        cases hl : lookupAssoc nch (c0 :: cs) with
        | some c1 =>
          have hLeft : ((RoutingTreeNode.mk na nch).add ((c0 :: cs) :: prest) a nf).get
              ((c0 :: cs) :: qrest) = (c1.add prest a nf).get qrest := by
            simp [RoutingTreeNode.add, RoutingTreeNode.get, RoutingTreeNode.children,
              hl, lookupAssoc_setAssoc_self]
          rw [hLeft]
          exact ih qrest c1 he2
        | none =>
          have hLeft : ((RoutingTreeNode.mk na nch).add ((c0 :: cs) :: prest) a nf).get
              ((c0 :: cs) :: qrest) = ((RoutingTreeNode.new nf).add prest a nf).get qrest := by
            simp [RoutingTreeNode.add, RoutingTreeNode.get, RoutingTreeNode.children,
              hl, lookupAssoc_setAssoc_self]
          rw [hLeft]
          exact ih qrest _ he2

/-- A registration changes no lookup made with a different method or a
route with a different canonical path. -/
theorem router_get_add_other {α : Type} (r : Router α) (m : HttpMethod) (p : List Char)
    (a : α) (m' : HttpMethod) (q : List Char)
    (hcond : m' ≠ m ∨ canonRoute q ≠ canonRoute p) :
    (r.add m p a).get m' q = r.get m' q := by
  rw [router_get_eq_getD, router_get_eq_getD]
  by_cases hm : m' = m
  · subst hm
    have hcanon : canonRoute q ≠ canonRoute p := by
      rcases hcond with h | h
      · exact absurd rfl h
      · exact h
    simp only [Router.add, if_true]
    exact get_add_ne a r.not_found_action (splitRoute p) (splitRoute q)
      (r.route_tree m') hcanon
  · simp only [Router.add]
    rw [if_neg hm]

/-- Claim C9: registering `(m, p, h1)` and then `(m, p, h2)` leaves exactly
`h2` reachable at `p` (last registration wins, no duplicate-route error),
and the second registration changes no other resolution: every lookup with
a different method, or a route addressing a different tree node (different
canonical path), is unchanged. -/
theorem c9_last_registration_wins {α : Type} (r0 : Router α) (m : HttpMethod)
    (p : List Char) (h1 h2 : α) :
    ((r0.add m p h1).add m p h2).get m p = h2 ∧
    ∀ (m' : HttpMethod) (q : List Char), m' ≠ m ∨ canonRoute q ≠ canonRoute p →
      ((r0.add m p h1).add m p h2).get m' q = (r0.add m p h1).get m' q := by
  constructor
  · rw [router_get_eq_getD]
    simp only [Router.add, if_true]
    rw [get_add_eq h2 _ (splitRoute p) (splitRoute p) _ rfl]
    rfl
  · intro m' q hcond
    exact router_get_add_other (r0.add m p h1) m p h2 m' q hcond

/-- Witness for the last-registration theorem at a concrete router. -/
theorem c9_last_registration_wins_witness :
    (((Router.new 0).add .Get (chars ("/a/b")) 1).add .Get (chars ("/a/b")) 2).get .Get
        (chars ("/a/b")) = 2 ∧
    (((Router.new 0).add .Get (chars ("/a/b")) 1).add .Get (chars ("/a/b")) 2).get .Get
        (chars ("/x"))
      = ((Router.new 0).add .Get (chars ("/a/b")) 1).get .Get (chars ("/x")) := by
  have hc := c9_last_registration_wins (Router.new 0) .Get (chars ("/a/b")) 1 2
  exact ⟨hc.1, hc.2 .Get (chars ("/x")) (Or.inr (by decide))⟩

/-- `Char.ofNat` of a small scalar keeps its numeric value. -/
theorem char_toNat_ofNat {n : Nat} (h : n < 55296) : (Char.ofNat n).toNat = n := by
  simp [Char.ofNat, Nat.isValidChar, h, Char.ofNatAux, UInt32.ofNat', Char.toNat,
    UInt32.toNat, BitVec.toNat_ofNatLt]

/-- A character fixed by ASCII lowercasing is not an ASCII uppercase
letter. -/
theorem asciiLowerChar_fixpoint_not_upper {c : Char} (hfix : asciiLowerChar c = c)
    (hup : 65 ≤ c.toNat ∧ c.toNat ≤ 90) : False := by
  have h1 : asciiLowerChar c = Char.ofNat (c.toNat + 32) := by
    simp [asciiLowerChar, hup]
  rw [hfix] at h1
  have h2 : (Char.ofNat (c.toNat + 32)).toNat = c.toNat + 32 :=
    char_toNat_ofNat (by omega)
  have h3 := congrArg Char.toNat h1
  rw [h2] at h3
  omega

/-- A list fixed by a map has every member fixed by the function. -/
theorem map_fix_mem {f : Char → Char} : ∀ (l : List Char), l.map f = l →
    ∀ c ∈ l, f c = c := by
  intro l
  induction l with
  | nil => intro _ c hc; cases hc
  | cons a t ih =>
    intro h c hc
    rw [List.map_cons] at h
    have h1 : f a = a := (List.cons.inj h).1
    have h2 : t.map f = t := (List.cons.inj h).2
    rcases List.mem_cons.mp hc with hc | hc
    · rw [hc]; exact h1
    · exact ih h2 c hc

/-- ASCII lowercasing of one character is idempotent. -/
theorem asciiLowerChar_idem (c : Char) :
    asciiLowerChar (asciiLowerChar c) = asciiLowerChar c := by
  by_cases h : 65 ≤ c.toNat ∧ c.toNat ≤ 90
  · have h1 : asciiLowerChar c = Char.ofNat (c.toNat + 32) := by
      simp [asciiLowerChar, h]
    have h2 : (Char.ofNat (c.toNat + 32)).toNat = c.toNat + 32 :=
      char_toNat_ofNat (by omega)
    rw [h1]
    simp only [asciiLowerChar, h2]
    rw [if_neg (by omega)]
  · simp [asciiLowerChar, h]

/-- ASCII lowercasing of a string is idempotent. -/
theorem asciiLower_idem (s : List Char) : asciiLower (asciiLower s) = asciiLower s := by
  induction s with
  | nil => rfl
  | cons c t ih =>
    simp only [asciiLower, List.map_cons] at ih ⊢
    rw [asciiLowerChar_idem]
    exact congrArg _ ih

/-- Inserting a lowercase-normalised key preserves the lowercase-key
invariant. -/
theorem lowerKeys_setAssoc {β : Type} (l : List (List Char × β)) (k : List Char) (v : β)
    (hl : lowerKeys l) (hk : asciiLower k = k) : lowerKeys (setAssoc l k v) := by
  induction l with
  | nil =>
    intro kv hkv
    simp [setAssoc] at hkv
    rw [hkv]
    exact hk
  | cons kv0 rest ih =>
    obtain ⟨k0, w⟩ := kv0
    intro kv hkv
    by_cases h0 : k0 = k
    · simp only [setAssoc, if_pos h0] at hkv
      rcases List.mem_cons.mp hkv with hkv | hkv
      · rw [hkv]
        exact hl (k0, w) (List.mem_cons_self _ _)
      · exact hl kv (List.mem_cons_of_mem _ hkv)
    · simp only [setAssoc, if_neg h0] at hkv
      rcases List.mem_cons.mp hkv with hkv | hkv
      · rw [hkv]
        exact hl (k0, w) (List.mem_cons_self _ _)
      · exact ih (fun kv0 h => hl kv0 (List.mem_cons_of_mem _ h)) kv hkv

/-- The header loop of the decoder produces a map whose keys are all
lowercase-normalised. -/
theorem parseHeaders_lowerKeys : ∀ (lines : List (List Char))
    (acc res : List (List Char × List Char)), lowerKeys acc →
    parseHeaders lines acc = .ok res → lowerKeys res := by
  intro lines
  induction lines with
  | nil =>
    intro acc res hacc h
    simp only [parseHeaders] at h
    injection h with h
    rw [← h]
    exact hacc
  | cons line rest ih =>
    intro acc res hacc h
    simp only [parseHeaders] at h
    split at h
    · simp at h
    · exact ih _ _ (lowerKeys_setAssoc _ _ _ hacc (asciiLower_idem _)) h

/-- Looking up a name that contains an ASCII uppercase letter in a map with
lowercase-normalised keys always fails. -/
theorem lookupAssoc_none_of_hasUpper {β : Type} :
    ∀ (l : List (List Char × β)), lowerKeys l →
    ∀ (name : List Char), hasUpperAscii name = true → lookupAssoc l name = none := by
  intro l
  induction l with
  | nil => intro _ name _; rfl
  | cons kv rest ih =>
    obtain ⟨k, v⟩ := kv
    intro hl name hup
    have hk : asciiLower k = k := hl (k, v) (List.mem_cons_self _ _)
    have hne : k ≠ name := by
      intro he
      subst he
      obtain ⟨c, hc, hcu⟩ := List.any_eq_true.mp hup
      simp only [Bool.and_eq_true, decide_eq_true_eq] at hcu
      exact asciiLowerChar_fixpoint_not_upper (map_fix_mem k hk c hc) hcu
    simp only [lookupAssoc, if_neg hne]
    exact ih (fun kv h => hl kv (List.mem_cons_of_mem _ h)) name hup

/-- A successful final assembly step keeps the header map it was given. -/
theorem finishRequest_ok_headers (addr : SocketAddr) (method : HttpMethod)
    (route protocol host : List Char) (version : Dec)
    (headers : List (List Char × List Char)) (body : List Nat) (r : Request)
    (h : finishRequest addr method route protocol host version headers body = .ok r) :
    r.headers = headers := by
  unfold finishRequest at h
  split at h
  · simp at h
  · injection h with h
    rw [← h]
    rfl

/-- Every successfully decoded request has a header map whose keys are all
lowercase-normalised. -/
theorem from_bytes_ok_lowerKeys (addr : SocketAddr) (bytes : List Nat) (r : Request)
    (h : Request.from_bytes addr bytes = .ok r) : lowerKeys r.headers := by
  unfold Request.from_bytes at h
  dsimp only at h
  repeat' split at h
  all_goals first
    | exact ParseOutcome.noConfusion h
    | (rw [finishRequest_ok_headers _ _ _ _ _ _ _ _ _ h]
       exact parseHeaders_lowerKeys _ _ _ (fun kv hkv => absurd hkv (List.not_mem_nil kv)) (by assumption))

/-- Claim C10: header names of a decoded request are stored
lowercase-normalised, and `Request::header` is an exact case-sensitive
lookup, so any query name containing an ASCII uppercase letter returns
`None` regardless of the headers present in the raw request. -/
theorem c10_header_lookup_case_sensitive (addr : SocketAddr) (bytes : List Nat)
    (r : Request) (name : List Char) (hok : Request.from_bytes addr bytes = .ok r)
    (hup : hasUpperAscii name = true) :
    (∀ kv ∈ r.headers, asciiLower kv.1 = kv.1) ∧ r.header name = none := by
  have hl := from_bytes_ok_lowerKeys addr bytes r hok
  exact ⟨hl, lookupAssoc_none_of_hasUpper _ hl name hup⟩

/-- Witness: the decoded request that carried `Connection: close` answers
`None` for the query `Connection` while holding `connection ↦ close`. -/
theorem c10_header_lookup_case_sensitive_witness :
    c10req.header (chars ("Connection")) = none ∧
    lookupAssoc c10req.headers (chars ("connection")) = some (chars ("close")) := by
  refine ⟨(c10_header_lookup_case_sensitive addr0
      (utf8Encode (chars ("GET / HTTP/1.1\r\nHost: x\r\nConnection: close")))
      c10req (chars ("Connection")) (by decide) (by decide)).2, by decide⟩
